import Mathlib

/-!
Verification of the VWAP session-maintenance core described in the
repository's scheduler documentation (`VWAP_CALCULATION_GUIDE.md`).
The executable scheduler is not part of the checked-in sources, so every
definition below is modelled from the specification's words: the data
model (candles, VWAP sessions), the session classifier, the pure VWAP
accumulator, and the session-updater orchestration with its candle-set
rules, empty-batch short-circuit, order check, and all-or-nothing write.
-/

namespace Onchain

/-- Modelled from the spec: an OHLCV candle, identified by its
`unixTimestamp`, with decimal prices, non-negative decimal volume, a
completeness flag (only complete candles participate in VWAP), and an
optional computed `vwapValue` together with `lastUpdatedAt`, the two
fields the core writes. Prices and volume are rationals standing for
the decimals. -/
structure Candle where
  unixTimestamp : ℤ
  high : ℚ
  low : ℚ
  close : ℚ
  volume : ℚ
  isComplete : Bool
  vwapValue : Option ℚ
  lastUpdatedAt : ℤ
deriving DecidableEq, Repr

/-- Modelled from the spec: a VWAP session record per (token, timeframe)
pair: inclusive UTC day boundaries, running cumulative sums, the current
VWAP (`none` standing for "no VWAP defined" when cumulative volume is
zero), the timestamp of the most recent candle folded in, and the time
of the last successful update. -/
structure Session where
  sessionStartUnix : ℤ
  sessionEndUnix : ℤ
  cumulativePV : ℚ
  cumulativeVolume : ℚ
  currentVWAP : Option ℚ
  lastCandleUnix : Option ℤ
  lastFetchedAt : ℤ
deriving DecidableEq, Repr

/-- Modelled from the spec: `typicalPrice = (high + low + close) / 3`. -/
def typicalPrice (c : Candle) : ℚ :=
  (c.high + c.low + c.close) / 3

/-- Modelled from the spec: the VWAP emitted at a point is `pv / vol`,
defined only when the running volume is positive (zero running volume
means "no VWAP defined", never a division by zero). -/
def emitVWAP (pv vol : ℚ) : Option ℚ :=
  if 0 < vol then some (pv / vol) else none

/-- Modelled from the spec: the VWAP accumulator. A left fold over an
ordered candle sequence, seeded by `(seedPV, seedVolume)`, maintaining
`pv += typicalPrice * volume` and `vol += volume`, emitting for each
candle the VWAP at that point, and returning the emissions together
with the final cumulative totals. -/
def accumulate : List Candle → ℚ → ℚ → List (Candle × Option ℚ) × ℚ × ℚ
  | [], seedPV, seedVolume => ([], seedPV, seedVolume)
  | c :: rest, seedPV, seedVolume =>
    let pv := seedPV + typicalPrice c * c.volume
    let vol := seedVolume + c.volume
    let r := accumulate rest pv vol
    ((c, emitVWAP pv vol) :: r.1, r.2)

/-- Sum of `typicalPrice * volume` over a candle list (the quantity the
accumulator adds to its running `pv`). -/
def sumPV (cs : List Candle) : ℚ :=
  (cs.map (fun c => typicalPrice c * c.volume)).sum

/-- Sum of `volume` over a candle list (the quantity the accumulator
adds to its running `vol`). -/
def sumVol (cs : List Candle) : ℚ :=
  (cs.map Candle.volume).sum

/-- Modelled from the spec: the three processing states of the session
classifier. -/
inductive SessionState where
  | NEW_SESSION
  | SAME_DAY_UPDATE
  | NEW_DAY_RESET
deriving DecidableEq, Repr

/-- Modelled from the spec: the session classifier. `NEW_SESSION` when
no session row exists; otherwise `SAME_DAY_UPDATE` when
`lastFetchedAt <= sessionEndUnix` (non-strict, so the boundary instant
is same-day) and `NEW_DAY_RESET` when `lastFetchedAt > sessionEndUnix`. -/
def classifySession (existing : Option Session) (lastFetchedAt : ℤ) : SessionState :=
  match existing with
  | none => .NEW_SESSION
  | some s =>
    if lastFetchedAt ≤ s.sessionEndUnix then .SAME_DAY_UPDATE else .NEW_DAY_RESET

/-- Modelled from the spec: 00:00:00 of the UTC calendar day containing
`t` (Unix seconds; days are 86400 seconds). -/
def dayStart (t : ℤ) : ℤ :=
  t - t % 86400

/-- Modelled from the spec: 23:59:59 of the UTC calendar day containing
`t`. -/
def dayEnd (t : ℤ) : ℤ :=
  dayStart t + 86399

/-- Modelled from the spec: the storage collaborator's state for one
(token, timeframe) pair: its candle table and its optional session row. -/
structure Store where
  candles : List Candle
  session : Option Session
deriving DecidableEq, Repr

/-- Modelled from the spec: `getCandlesAfter` — complete candles with
timestamp strictly greater than the given time, in stored order. -/
def getCandlesAfter (candles : List Candle) (t : ℤ) : List Candle :=
  candles.filter fun c => c.isComplete && decide (t < c.unixTimestamp)

/-- Modelled from the spec: `getCandlesInRange` — complete candles with
timestamp within the inclusive range, in stored order. -/
def getCandlesInRange (candles : List Candle) (a b : ℤ) : List Candle :=
  candles.filter fun c =>
    c.isComplete && decide (a ≤ c.unixTimestamp) && decide (c.unixTimestamp ≤ b)

/-- All complete candles of the pair (the NEW_SESSION candle set: every
complete candle since pair creation). -/
def getAllComplete (candles : List Candle) : List Candle :=
  candles.filter fun c => c.isComplete

/-- Modelled from the spec: the candle-set rule of the Session Updater,
matching the classified state. NEW_SESSION: all complete candles.
SAME_DAY_UPDATE: complete candles strictly after `lastCandleUnix` (all
complete candles in the degenerate case of a session that never folded
a candle). NEW_DAY_RESET: complete candles within the UTC day
containing the run's reference time `now`. -/
def fetchedCandleSet (st : Store) (now : ℤ) : List Candle :=
  match st.session with
  | none => getAllComplete st.candles
  | some s =>
    if now ≤ s.sessionEndUnix then
      match s.lastCandleUnix with
      | some t => getCandlesAfter st.candles t
      | none => getAllComplete st.candles
    else getCandlesInRange st.candles (dayStart now) (dayEnd now)

/-- Strictly increasing timestamp order of a candle list (the
accumulator's input contract), as a boolean check. -/
def strictlyIncreasingB : List Candle → Bool
  | [] => true
  | [_] => true
  | a :: b :: rest =>
    decide (a.unixTimestamp < b.unixTimestamp) && strictlyIncreasingB (b :: rest)

/-- Timestamp of the last candle of a batch (0 on the empty batch, a
case the updater never reaches). -/
def lastTimestamp : List Candle → ℤ
  | [] => 0
  | [c] => c.unixTimestamp
  | _ :: c :: rest => lastTimestamp (c :: rest)

/-- The VWAP value the emission list assigns to the candle stamped `t`,
if any. -/
def vwapFor (emissions : List (Candle × Option ℚ)) (t : ℤ) : Option ℚ :=
  match emissions.find? (fun e => e.1.unixTimestamp == t) with
  | some e => e.2
  | none => none

/-- The per-candle write: a candle whose VWAP was emitted gets its
`vwapValue` and `lastUpdatedAt` set; a candle without an emitted VWAP
(zero running volume) is left untouched. -/
def applyVWAP (emissions : List (Candle × Option ℚ)) (now : ℤ) (c : Candle) : Candle :=
  match vwapFor emissions c.unixTimestamp with
  | some v => { c with vwapValue := some v, lastUpdatedAt := now }
  | none => c

/-- Modelled from the spec: the candle-table write of step 5, applied
across the table. -/
def writeCandleVWAPs (table : List Candle) (emissions : List (Candle × Option ℚ))
    (now : ℤ) : List Candle :=
  table.map (applyVWAP emissions now)

/-- Modelled from the spec: errors of a Session Updater run. -/
inductive UpdateError where
  | outOfOrderCandle
  | storageWriteFailure
deriving DecidableEq, Repr

/-- Modelled from the spec: a pair's per-run outcome — updated (N
candles processed), skipped (no new candles), or failed (with reason). -/
inductive RunOutcome where
  | updated (n : ℕ)
  | skipped
  | failed (e : UpdateError)
deriving DecidableEq, Repr

/-- The accumulator seed for the classified state: the existing
cumulative totals for SAME_DAY_UPDATE, `(0, 0)` otherwise. -/
def runSeed (st : Store) (now : ℤ) : ℚ × ℚ :=
  match st.session with
  | none => (0, 0)
  | some s =>
    if now ≤ s.sessionEndUnix then (s.cumulativePV, s.cumulativeVolume) else (0, 0)

/-- The session boundaries for the classified state: kept for
SAME_DAY_UPDATE, the UTC day of `now` for NEW_SESSION and
NEW_DAY_RESET. -/
def runBounds (st : Store) (now : ℤ) : ℤ × ℤ :=
  match st.session with
  | none => (dayStart now, dayEnd now)
  | some s =>
    if now ≤ s.sessionEndUnix then (s.sessionStartUnix, s.sessionEndUnix)
    else (dayStart now, dayEnd now)

/-- The session row written after a successful accumulation:
`lastFetchedAt` and `lastCandleUnix` refreshed to the batch's latest
processed timestamp, `currentVWAP` defined exactly when the cumulative
volume is positive. -/
def sessionAfterAccum (startU endU : ℤ) (pv vol : ℚ) (lastTs : ℤ) : Session :=
  { sessionStartUnix := startU
    sessionEndUnix := endU
    cumulativePV := pv
    cumulativeVolume := vol
    currentVWAP := emitVWAP pv vol
    lastCandleUnix := some lastTs
    lastFetchedAt := lastTs }

/-- Modelled from the spec: one Session Updater run for a pair.
Classifies the session, fetches the state's candle set, short-circuits
an empty batch to a skipped no-op, fails (mutating nothing) on an
out-of-order candle set or on a storage-write failure (`writeOk =
false` models the write failing and rolling back), and otherwise
accumulates and atomically writes per-candle VWAPs and the upserted
session row. -/
def updateSession (now : ℤ) (writeOk : Bool) (st : Store) : RunOutcome × Store :=
  let cs := fetchedCandleSet st now
  if cs.isEmpty then (.skipped, st)
  else if strictlyIncreasingB cs then
    if writeOk then
      let r := accumulate cs (runSeed st now).1 (runSeed st now).2
      (.updated cs.length,
        { candles := writeCandleVWAPs st.candles r.1 now
          session := some (sessionAfterAccum (runBounds st now).1 (runBounds st now).2
            r.2.1 r.2.2 (lastTimestamp cs)) })
    else (.failed .storageWriteFailure, st)
  else (.failed .outOfOrderCandle, st)

/-- First example candle of the guide: 09:00, H=10, L=9, C=9.5, V=1000. -/
def exCandle1 : Candle :=
  { unixTimestamp := 32400, high := 10, low := 9, close := 9.5
    volume := 1000, isComplete := true, vwapValue := none, lastUpdatedAt := 0 }

/-- Second example candle of the guide: 10:00, H=11, L=10, C=10.5, V=1500. -/
def exCandle2 : Candle :=
  { unixTimestamp := 36000, high := 11, low := 10, close := 10.5
    volume := 1500, isComplete := true, vwapValue := none, lastUpdatedAt := 0 }

/-- A complete candle with zero volume, for the zero-volume edge case. -/
def exCandleZeroVol : Candle :=
  { unixTimestamp := 32400, high := 10, low := 9, close := 9.5
    volume := 0, isComplete := true, vwapValue := none, lastUpdatedAt := 0 }

/-! ## Basic facts about the accumulator -/

theorem accumulate_totals (cs : List Candle) (p v : ℚ) :
    (accumulate cs p v).2 = (p + sumPV cs, v + sumVol cs) := by
  induction cs generalizing p v with
  | nil => simp [accumulate, sumPV, sumVol]
  | cons c rest ih =>
    simp only [accumulate]
    rw [ih]
    simp only [sumPV, sumVol, List.map_cons, List.sum_cons, Prod.mk.injEq]
    constructor <;> ring

theorem accumulate_length (cs : List Candle) (p v : ℚ) :
    (accumulate cs p v).1.length = cs.length := by
  induction cs generalizing p v with
  | nil => rfl
  | cons c rest ih => simp [accumulate, ih]

theorem accumulate_emission (cs : List Candle) (p v : ℚ) (k : ℕ) :
    (accumulate cs p v).1[k]? =
      (cs[k]?).map (fun c =>
        (c, emitVWAP (p + sumPV (cs.take (k + 1))) (v + sumVol (cs.take (k + 1))))) := by
  induction cs generalizing p v k with
  | nil => simp [accumulate]
  | cons c rest ih =>
    cases k with
    | zero =>
      simp [accumulate, sumPV, sumVol]
    | succ k =>
      simp only [accumulate, List.getElem?_cons_succ, List.take_succ_cons]
      rw [ih]
      cases h : rest[k]? with
      | none => simp
      | some c' =>
        simp only [Option.map_some', Option.some.injEq, Prod.mk.injEq, true_and]
        have hpv : p + typicalPrice c * c.volume + sumPV (rest.take (k + 1)) =
            p + sumPV (c :: rest.take (k + 1)) := by
          simp only [sumPV, List.map_cons, List.sum_cons]; ring
        have hvol : v + c.volume + sumVol (rest.take (k + 1)) =
            v + sumVol (c :: rest.take (k + 1)) := by
          simp only [sumVol, List.map_cons, List.sum_cons]; ring
        rw [hpv, hvol]

theorem accumulate_append (xs ys : List Candle) (p v : ℚ) :
    accumulate (xs ++ ys) p v =
      ((accumulate xs p v).1 ++
          (accumulate ys (accumulate xs p v).2.1 (accumulate xs p v).2.2).1,
        (accumulate ys (accumulate xs p v).2.1 (accumulate xs p v).2.2).2) := by
  induction xs generalizing p v with
  | nil => simp [accumulate]
  | cons c rest ih =>
    simp only [List.cons_append, accumulate, List.append_eq]
    rw [ih]

/-! ## Claims about the accumulator -/

/-- C1: the VWAP accumulator is the left fold adding
`typicalPrice * volume` to the running `pv` and `volume` to the running
`vol` per candle, emitting `pv / vol` as that candle's VWAP; on the
guide's two candles seeded from `(0, 0)` it emits VWAP 9.5 with
cumulative totals `(9500, 1000)` after the first candle and VWAP 10.1
with cumulative totals `(25250, 2500)` after the second. -/
theorem vwap_accumulator_is_running_fold (cs : List Candle) (p v : ℚ)
    (hord : strictlyIncreasingB cs = true) :
    (accumulate cs p v).2 = (p + sumPV cs, v + sumVol cs)
    ∧ (∀ k : ℕ, (accumulate cs p v).1[k]? =
        (cs[k]?).map (fun c =>
          (c, emitVWAP (p + sumPV (cs.take (k + 1))) (v + sumVol (cs.take (k + 1))))))
    ∧ accumulate [exCandle1, exCandle2] 0 0 =
        ([(exCandle1, some 9.5), (exCandle2, some 10.1)], 25250, 2500)
    ∧ sumPV [exCandle1] = 9500 ∧ sumVol [exCandle1] = 1000 := by
  refine ⟨accumulate_totals cs p v, fun k => accumulate_emission cs p v k, ?_, ?_, ?_⟩
  · norm_num [accumulate, exCandle1, exCandle2, typicalPrice, emitVWAP]
  · norm_num [sumPV, exCandle1, typicalPrice]
  · norm_num [sumVol, exCandle1]

theorem vwap_accumulator_is_running_fold_witness :
    strictlyIncreasingB [exCandle1, exCandle2] = true
    ∧ (accumulate [exCandle1, exCandle2] 0 0).2 =
        (0 + sumPV [exCandle1, exCandle2], 0 + sumVol [exCandle1, exCandle2]) :=
  ⟨by decide, (vwap_accumulator_is_running_fold [exCandle1, exCandle2] 0 0 (by decide)).1⟩

/-- C2: accumulating a whole ordered candle sequence seeded from
`(0, 0)` equals accumulating a prefix seeded from `(0, 0)` and then the
remaining suffix seeded from the prefix run's final cumulative totals —
same final totals and the same per-candle VWAP emissions. -/
theorem incremental_equals_batch (cs xs ys : List Candle)
    (hord : strictlyIncreasingB cs = true) (hsplit : cs = xs ++ ys) :
    (accumulate cs 0 0).2 =
      (accumulate ys (accumulate xs 0 0).2.1 (accumulate xs 0 0).2.2).2
    ∧ (accumulate cs 0 0).1 =
        (accumulate xs 0 0).1 ++
          (accumulate ys (accumulate xs 0 0).2.1 (accumulate xs 0 0).2.2).1 := by
  subst hsplit
  have h := accumulate_append xs ys 0 0
  exact ⟨by rw [h], by rw [h]⟩

theorem incremental_equals_batch_witness :
    strictlyIncreasingB [exCandle1, exCandle2] = true
    ∧ [exCandle1, exCandle2] = [exCandle1] ++ [exCandle2]
    ∧ (accumulate [exCandle1, exCandle2] 0 0).2 =
        (accumulate [exCandle2] (accumulate [exCandle1] 0 0).2.1
          (accumulate [exCandle1] 0 0).2.2).2 :=
  ⟨by decide, rfl,
    (incremental_equals_batch [exCandle1, exCandle2] [exCandle1] [exCandle2]
      (by decide) rfl).1⟩

/-! ## The session classifier -/

/-- C3: the session classifier is total and pure, returning NEW_SESSION
exactly when no session exists, SAME_DAY_UPDATE exactly when a session
exists and `lastFetchedAt ≤ sessionEndUnix`, NEW_DAY_RESET exactly when
a session exists and `lastFetchedAt > sessionEndUnix`; the boundary
instant `lastFetchedAt = sessionEndUnix` is classified
SAME_DAY_UPDATE. -/
theorem session_classifier_total_three_way (s : Session) (t : ℤ) :
    classifySession none t = .NEW_SESSION
    ∧ (classifySession (some s) t = .SAME_DAY_UPDATE ↔ t ≤ s.sessionEndUnix)
    ∧ (classifySession (some s) t = .NEW_DAY_RESET ↔ s.sessionEndUnix < t)
    ∧ classifySession (some s) s.sessionEndUnix = .SAME_DAY_UPDATE := by
  refine ⟨rfl, ?_, ?_, ?_⟩
  · unfold classifySession
    by_cases h : t ≤ s.sessionEndUnix <;> simp [h]
  · unfold classifySession
    by_cases h : t ≤ s.sessionEndUnix <;> simp [h, not_le.mp, lt_iff_not_le]
  · unfold classifySession
    simp

theorem session_classifier_total_three_way_witness :
    classifySession none 0 = .NEW_SESSION
    ∧ (classifySession (some (sessionAfterAccum 0 86399 0 0 0)) 86400 = .NEW_DAY_RESET
        ↔ (sessionAfterAccum 0 86399 0 0 0).sessionEndUnix < 86400) :=
  ⟨(session_classifier_total_three_way (sessionAfterAccum 0 86399 0 0 0) 86400).1,
    (session_classifier_total_three_way (sessionAfterAccum 0 86399 0 0 0) 86400).2.2.1⟩

/-! ## Frame properties of the Session Updater -/

theorem updateSession_failed_frame (now : ℤ) (ok : Bool) (st : Store) (e : UpdateError)
    (h : (updateSession now ok st).1 = .failed e) :
    (updateSession now ok st).2 = st := by
  by_cases h1 : (fetchedCandleSet st now).isEmpty = true
  · simp [updateSession, h1]
  · by_cases h2 : strictlyIncreasingB (fetchedCandleSet st now) = true
    · by_cases h3 : ok = true
      · exfalso
        simp [updateSession, h1, h2, h3] at h
      · simp only [Bool.not_eq_true] at h3
        simp [updateSession, h1, h2, h3]
    · simp only [Bool.not_eq_true] at h1 h2
      simp [updateSession, h1, h2]

theorem updateSession_skipped_of_empty (now : ℤ) (ok : Bool) (st : Store)
    (h : fetchedCandleSet st now = []) :
    updateSession now ok st = (.skipped, st) := by
  simp [updateSession, h]

/-- C5: a failed Session Updater run — storage-write failure or an
out-of-order candle set — mutates neither the candle store nor the
session store, so a retry against the same stable candle data runs from
the identical state and reproduces the identical result. -/
theorem failed_run_mutates_nothing (now : ℤ) (ok : Bool) (st : Store) (e : UpdateError)
    (h : (updateSession now ok st).1 = .failed e) :
    (updateSession now ok st).2 = st
    ∧ updateSession now true (updateSession now ok st).2 = updateSession now true st := by
  have hframe := updateSession_failed_frame now ok st e h
  exact ⟨hframe, by rw [hframe]⟩

theorem failed_run_mutates_nothing_witness :
    (updateSession 0 true ⟨[exCandle2, exCandle1], none⟩).1 = .failed .outOfOrderCandle
    ∧ (updateSession 0 true ⟨[exCandle2, exCandle1], none⟩).2 =
        ⟨[exCandle2, exCandle1], none⟩
    ∧ (updateSession 0 false ⟨[exCandle1], none⟩).1 = .failed .storageWriteFailure
    ∧ (updateSession 0 false ⟨[exCandle1], none⟩).2 = ⟨[exCandle1], none⟩ :=
  ⟨by decide,
    (failed_run_mutates_nothing 0 true ⟨[exCandle2, exCandle1], none⟩
      .outOfOrderCandle (by decide)).1,
    by decide,
    (failed_run_mutates_nothing 0 false ⟨[exCandle1], none⟩
      .storageWriteFailure (by decide)).1⟩

/-- C6: a run whose fetched candle set is empty is a no-op reported as
skipped: no candle-table write, no session-table write, and the store —
session record included — is exactly what it was before the run. -/
theorem empty_batch_is_noop (now : ℤ) (ok : Bool) (st : Store)
    (h : fetchedCandleSet st now = []) :
    updateSession now ok st = (.skipped, st) :=
  updateSession_skipped_of_empty now ok st h

theorem empty_batch_is_noop_witness :
    fetchedCandleSet ⟨[], none⟩ 0 = []
    ∧ updateSession 0 true ⟨[], none⟩ = (.skipped, ⟨[], none⟩) :=
  ⟨rfl, empty_batch_is_noop 0 true ⟨[], none⟩ rfl⟩

/-! ## Zero-volume candle handling -/

theorem sumVol_eq_zero (cs : List Candle) (h : ∀ c ∈ cs, c.volume = 0) :
    sumVol cs = 0 := by
  induction cs with
  | nil => rfl
  | cons c rest ih =>
    simp only [sumVol, List.map_cons, List.sum_cons] at *
    rw [h c (List.mem_cons_self c rest), ih fun c' hc' => h c' (List.mem_cons_of_mem c hc')]
    ring

theorem sumPV_eq_zero (cs : List Candle) (h : ∀ c ∈ cs, c.volume = 0) :
    sumPV cs = 0 := by
  induction cs with
  | nil => rfl
  | cons c rest ih =>
    simp only [sumPV, List.map_cons, List.sum_cons] at *
    rw [h c (List.mem_cons_self c rest), ih fun c' hc' => h c' (List.mem_cons_of_mem c hc')]
    ring

theorem accumulate_emissions_none (cs : List Candle) (p : ℚ)
    (h : ∀ c ∈ cs, c.volume = 0) :
    ∀ e ∈ (accumulate cs p 0).1, e.2 = none := by
  induction cs generalizing p with
  | nil =>
    intro e he
    simp [accumulate] at he
  | cons c rest ih =>
    intro e he
    have hc : c.volume = 0 := h c (List.mem_cons_self c rest)
    simp only [accumulate, hc, mul_zero, add_zero, List.mem_cons] at he
    rcases he with he | he
    · rw [he]
      simp [emitVWAP]
    · exact ih p (fun c' hc' => h c' (List.mem_cons_of_mem c hc')) e he

theorem applyVWAP_of_none (emissions : List (Candle × Option ℚ)) (now : ℤ) (c : Candle)
    (h : ∀ e ∈ emissions, e.2 = none) :
    applyVWAP emissions now c = c := by
  unfold applyVWAP vwapFor
  cases hf : emissions.find? (fun e => e.1.unixTimestamp == c.unixTimestamp) with
  | none => rfl
  | some e =>
    simp [h e (List.mem_of_find?_eq_some hf)]

theorem writeCandleVWAPs_of_none (table : List Candle)
    (emissions : List (Candle × Option ℚ)) (now : ℤ)
    (h : ∀ e ∈ emissions, e.2 = none) :
    writeCandleVWAPs table emissions now = table := by
  induction table with
  | nil => rfl
  | cons c rest ih =>
    simp only [writeCandleVWAPs, List.map_cons] at *
    rw [applyVWAP_of_none emissions now c h, ih]

/-- An existing same-day session carrying the positive cumulative seed
`(9500, 1000)`, its last candle folded at 01:00, used to exhibit the
updater's behaviour on an all-zero-volume batch with a positive seed. -/
def exSeededSession : Session :=
  { sessionStartUnix := 0, sessionEndUnix := 86399, cumulativePV := 9500
    cumulativeVolume := 1000, currentVWAP := some 9.5
    lastCandleUnix := some 3600, lastFetchedAt := 3600 }

/-- C7 counterexample: a SAME_DAY_UPDATE run with the positive seed
`(9500, 1000)` over a candidate set whose only candle has zero volume —
the set the claim's skip clause quantifies over — reports `updated 1`
and does write that candle's `vwapValue` (the running VWAP `9.5`,
unchanged), refuting "if every candidate candle has zero volume, the
run skips writing per-candle VWAP values". -/
theorem zero_volume_write_counterexample :
    fetchedCandleSet ⟨[exCandleZeroVol], some exSeededSession⟩ 40000 =
      [exCandleZeroVol]
    ∧ exCandleZeroVol.volume = 0
    ∧ (updateSession 40000 true ⟨[exCandleZeroVol], some exSeededSession⟩).1 =
        .updated 1
    ∧ (updateSession 40000 true ⟨[exCandleZeroVol], some exSeededSession⟩).2.candles =
        [{ unixTimestamp := 32400, high := 10, low := 9, close := 9.5
           volume := 0, isComplete := true, vwapValue := some 9.5
           lastUpdatedAt := 40000 }] := by
  refine ⟨?_, ?_, ?_, ?_⟩ <;>
    norm_num [updateSession, fetchedCandleSet, getCandlesAfter, runSeed, runBounds,
      accumulate, typicalPrice, emitVWAP, strictlyIncreasingB, sessionAfterAccum,
      lastTimestamp, writeCandleVWAPs, applyVWAP, vwapFor, exCandleZeroVol,
      exSeededSession, List.filter, List.find?]

/-- C7 (amended): a zero-volume candle leaves the running cumulative
state — and hence the running VWAP — unchanged while still being
emitted in sequence (so `lastCandleUnix` still advances past it); and a
run whose candidate candles all have zero volume AND whose accumulator
seed volume is zero (the spec's "vol is and remains zero" case: a
first-time pair, a zero-seed reset, or a zero-seed same-day update)
writes no per-candle VWAP value, is not reported as failed, and still
advances `lastCandleUnix` and `lastFetchedAt` to the batch's last
timestamp — no division by zero occurs, the session's `currentVWAP`
being left undefined. With a positive seed volume the VWAP stays
defined and is written unchanged instead of being skipped. -/
theorem zero_volume_candles_handled :
    (∀ (pv vol : ℚ) (c : Candle) (rest : List Candle), c.volume = 0 →
        accumulate (c :: rest) pv vol =
          ((c, emitVWAP pv vol) :: (accumulate rest pv vol).1,
            (accumulate rest pv vol).2))
    ∧ (∀ (now : ℤ) (st : Store), (runSeed st now).2 = 0 →
        (∀ c ∈ fetchedCandleSet st now, c.volume = 0) →
        fetchedCandleSet st now ≠ [] →
        strictlyIncreasingB (fetchedCandleSet st now) = true →
        (updateSession now true st).1 = .updated (fetchedCandleSet st now).length
        ∧ (updateSession now true st).2.candles = st.candles
        ∧ (updateSession now true st).2.session =
            some (sessionAfterAccum (runBounds st now).1 (runBounds st now).2
              (runSeed st now).1 0
              (lastTimestamp (fetchedCandleSet st now)))) := by
  constructor
  · intro pv vol c rest hc
    simp [accumulate, hc]
  · intro now st hseedv hzero hne hord
    have h1 : (fetchedCandleSet st now).isEmpty = false := by
      cases hcs : fetchedCandleSet st now with
      | nil => exact absurd hcs hne
      | cons a l => rfl
    have htot := accumulate_totals (fetchedCandleSet st now) (runSeed st now).1 0
    have hPV := sumPV_eq_zero _ hzero
    have hV := sumVol_eq_zero _ hzero
    have hnone := accumulate_emissions_none (fetchedCandleSet st now)
      (runSeed st now).1 hzero
    refine ⟨?_, ?_, ?_⟩
    · simp [updateSession, h1, hord]
    · have hw := writeCandleVWAPs_of_none st.candles
        (accumulate (fetchedCandleSet st now) (runSeed st now).1 0).1 now hnone
      simp [updateSession, h1, hord, hseedv, hw]
    · simp [updateSession, h1, hord, hseedv, htot, hPV, hV]

theorem zero_volume_candles_handled_witness :
    (updateSession 40000 true ⟨[exCandleZeroVol], none⟩).1 = .updated 1
    ∧ (updateSession 40000 true ⟨[exCandleZeroVol], none⟩).2.candles =
        [exCandleZeroVol] := by
  have h := zero_volume_candles_handled.2 40000 ⟨[exCandleZeroVol], none⟩
    (by norm_num [runSeed]) (by decide) (by decide) (by decide)
  exact ⟨h.1, h.2.1⟩

/-! ## Monotone cumulative volume within a session -/

theorem mem_of_mem_fetchedCandleSet (st : Store) (now : ℤ) (c : Candle)
    (hc : c ∈ fetchedCandleSet st now) : c ∈ st.candles := by
  unfold fetchedCandleSet getAllComplete getCandlesAfter getCandlesInRange at hc
  split at hc
  · exact (List.mem_filter.mp hc).1
  · split at hc
    · split at hc
      · exact (List.mem_filter.mp hc).1
      · exact (List.mem_filter.mp hc).1
    · exact (List.mem_filter.mp hc).1

theorem sumVol_nonneg (cs : List Candle) (h : ∀ c ∈ cs, 0 ≤ c.volume) :
    0 ≤ sumVol cs := by
  induction cs with
  | nil => simp [sumVol]
  | cons c rest ih =>
    simp only [sumVol, List.map_cons, List.sum_cons]
    exact add_nonneg (h c (List.mem_cons_self c rest))
      (ih fun c' hc' => h c' (List.mem_cons_of_mem c hc'))

theorem list_eq_nil_of_isEmpty {α : Type} (l : List α) (h : l.isEmpty = true) :
    l = [] := by
  cases l with
  | nil => rfl
  | cons a t => simp at h

/-- C9: within one session — an existing session updated while
`now ≤ sessionEndUnix`, i.e. with no NEW_DAY_RESET in between — a
Session Updater run never decreases the persisted `cumulativeVolume`,
whatever its outcome (an update adds the fetched candles' non-negative
volumes; a skip or failure leaves the session untouched). -/
theorem cumulative_volume_monotone (now : ℤ) (ok : Bool) (st : Store) (s s' : Session)
    (hsess : st.session = some s) (hday : now ≤ s.sessionEndUnix)
    (hvols : ∀ c ∈ st.candles, 0 ≤ c.volume)
    (hres : (updateSession now ok st).2.session = some s') :
    s.cumulativeVolume ≤ s'.cumulativeVolume := by
  by_cases h1 : (fetchedCandleSet st now).isEmpty = true
  · rw [updateSession_skipped_of_empty now ok st
      (list_eq_nil_of_isEmpty _ h1)] at hres
    rw [hsess] at hres
    cases hres
    exact le_refl _
  · by_cases h2 : strictlyIncreasingB (fetchedCandleSet st now) = true
    · by_cases h3 : ok = true
      · subst h3
        have hseed : runSeed st now = (s.cumulativePV, s.cumulativeVolume) := by
          simp [runSeed, hsess, hday]
        simp only [updateSession, h1, Bool.false_eq_true, if_false, h2, if_true,
          hseed] at hres
        have hvol : 0 ≤ sumVol (fetchedCandleSet st now) :=
          sumVol_nonneg _ fun c hc =>
            hvols c (mem_of_mem_fetchedCandleSet st now c hc)
        have htot := accumulate_totals (fetchedCandleSet st now)
          s.cumulativePV s.cumulativeVolume
        rw [Option.some.injEq] at hres
        rw [← hres]
        simp only [sessionAfterAccum, htot]
        linarith
      · simp only [Bool.not_eq_true] at h3
        simp only [updateSession, h1, Bool.false_eq_true, if_false, h2, if_true,
          h3] at hres
        rw [hsess] at hres
        cases hres
        exact le_refl _
    · simp only [Bool.not_eq_true] at h2
      simp only [updateSession, h1, Bool.false_eq_true, if_false, h2] at hres
      rw [hsess] at hres
      cases hres
      exact le_refl _

/-- The session state after the guide's first candle: cumulative totals
`(9500, 1000)`, last candle at 09:00. -/
def exSession1 : Session :=
  { sessionStartUnix := 0, sessionEndUnix := 86399, cumulativePV := 9500
    cumulativeVolume := 1000, currentVWAP := some 9.5
    lastCandleUnix := some 32400, lastFetchedAt := 32400 }

theorem cumulative_volume_monotone_witness :
    (updateSession 36000 true ⟨[exCandle1, exCandle2], some exSession1⟩).2.session =
      some (sessionAfterAccum 0 86399 25250 2500 36000)
    ∧ exSession1.cumulativeVolume ≤
        (sessionAfterAccum 0 86399 25250 2500 36000).cumulativeVolume := by
  have hres : (updateSession 36000 true
      ⟨[exCandle1, exCandle2], some exSession1⟩).2.session =
      some (sessionAfterAccum 0 86399 25250 2500 36000) := by
    norm_num [updateSession, fetchedCandleSet, getCandlesAfter, exSession1, exCandle1,
      exCandle2, runSeed, runBounds, accumulate, typicalPrice, emitVWAP,
      strictlyIncreasingB, sessionAfterAccum, lastTimestamp, List.filter]
  refine ⟨hres, cumulative_volume_monotone 36000 true _ exSession1 _ rfl
    (by norm_num [exSession1]) ?_ hres⟩
  intro c hc
  simp only [List.mem_cons, List.not_mem_nil, or_false] at hc
  rcases hc with rfl | rfl
  · norm_num [exCandle1]
  · norm_num [exCandle2]

/-! ## New-day reset discards prior cumulative state -/

/-- The guide's end-of-day session: cumulative totals `(272700, 9900)`
on the UTC day `[0, 86399]`. -/
def exPriorSession : Session :=
  { sessionStartUnix := 0, sessionEndUnix := 86399, cumulativePV := 272700
    cumulativeVolume := 9900, currentVWAP := emitVWAP 272700 9900
    lastCandleUnix := some 54000, lastFetchedAt := 54000 }

/-- The same end-of-day session with its cumulative totals zeroed, to
exhibit independence from the prior magnitude. -/
def exPriorSessionZero : Session :=
  { sessionStartUnix := 0, sessionEndUnix := 86399, cumulativePV := 0
    cumulativeVolume := 0, currentVWAP := none
    lastCandleUnix := some 54000, lastFetchedAt := 54000 }

/-- The guide's first candle of the next day: 09:00 of day 2,
H=11, L=10, C=10.5, V=1500. -/
def exNewDayCandle : Candle :=
  { unixTimestamp := 118800, high := 11, low := 10, close := 10.5
    volume := 1500, isComplete := true, vwapValue := none, lastUpdatedAt := 0 }

/-- C4: a NEW_DAY_RESET run computes the resulting session solely from
the new UTC day's complete candles with a `(0, 0)` seed: the whole run
result is the same for any prior cumulative totals, the written session
is the accumulation of the day-range candles from zero, and on the
guide's example (prior totals `(272700, 9900)`, one new-day candle
H=11, L=10, C=10.5, V=1500) the new session has `cumulativePV = 15750`,
`cumulativeVolume = 1500`, VWAP 10.5. -/
theorem new_day_reset_discards_prior_state (now : ℤ)
    (candles : List Candle) (s₁ s₂ : Session)
    (h₁ : s₁.sessionEndUnix < now) (h₂ : s₂.sessionEndUnix < now) :
    (updateSession now true ⟨candles, some s₁⟩).1 =
      (updateSession now true ⟨candles, some s₂⟩).1
    ∧ (strictlyIncreasingB (getCandlesInRange candles (dayStart now) (dayEnd now)) = true →
        getCandlesInRange candles (dayStart now) (dayEnd now) ≠ [] →
        updateSession now true ⟨candles, some s₁⟩ =
          updateSession now true ⟨candles, some s₂⟩
        ∧ (updateSession now true ⟨candles, some s₁⟩).2.session =
          some (sessionAfterAccum (dayStart now) (dayEnd now)
            (sumPV (getCandlesInRange candles (dayStart now) (dayEnd now)))
            (sumVol (getCandlesInRange candles (dayStart now) (dayEnd now)))
            (lastTimestamp (getCandlesInRange candles (dayStart now) (dayEnd now)))))
    ∧ (updateSession 118800 true ⟨[exNewDayCandle], some exPriorSession⟩).2.session =
        some { sessionStartUnix := 86400, sessionEndUnix := 172799
               cumulativePV := 15750, cumulativeVolume := 1500
               currentVWAP := some 10.5, lastCandleUnix := some 118800
               lastFetchedAt := 118800 } := by
  have hf₁ : fetchedCandleSet ⟨candles, some s₁⟩ now =
      getCandlesInRange candles (dayStart now) (dayEnd now) := by
    simp [fetchedCandleSet, not_le.mpr h₁]
  have hf₂ : fetchedCandleSet ⟨candles, some s₂⟩ now =
      getCandlesInRange candles (dayStart now) (dayEnd now) := by
    simp [fetchedCandleSet, not_le.mpr h₂]
  have hseed₁ : runSeed ⟨candles, some s₁⟩ now = (0, 0) := by
    simp [runSeed, not_le.mpr h₁]
  have hseed₂ : runSeed ⟨candles, some s₂⟩ now = (0, 0) := by
    simp [runSeed, not_le.mpr h₂]
  have hbounds₁ : runBounds ⟨candles, some s₁⟩ now = (dayStart now, dayEnd now) := by
    simp [runBounds, not_le.mpr h₁]
  have hbounds₂ : runBounds ⟨candles, some s₂⟩ now = (dayStart now, dayEnd now) := by
    simp [runBounds, not_le.mpr h₂]
  refine ⟨?_, ?_, ?_⟩
  · by_cases hE : (getCandlesInRange candles (dayStart now) (dayEnd now)).isEmpty = true <;>
      by_cases hO : strictlyIncreasingB
        (getCandlesInRange candles (dayStart now) (dayEnd now)) = true <;>
      simp [updateSession, hf₁, hf₂, hseed₁, hseed₂, hbounds₁, hbounds₂, hE, hO]
  · intro hord hne
    have h1 : (getCandlesInRange candles (dayStart now) (dayEnd now)).isEmpty = false := by
      cases hcs : getCandlesInRange candles (dayStart now) (dayEnd now) with
      | nil => exact absurd hcs hne
      | cons a l => rfl
    have htot := accumulate_totals (getCandlesInRange candles (dayStart now) (dayEnd now)) 0 0
    constructor
    · simp [updateSession, hf₁, hf₂, hseed₁, hseed₂, hbounds₁, hbounds₂, h1, hord]
    · simp [updateSession, hf₁, hseed₁, hbounds₁, h1, hord, htot]
  · norm_num [updateSession, fetchedCandleSet, getCandlesInRange, exPriorSession,
      exNewDayCandle, runSeed, runBounds, accumulate, typicalPrice, emitVWAP,
      strictlyIncreasingB, sessionAfterAccum, lastTimestamp, dayStart, dayEnd,
      List.filter]

theorem new_day_reset_discards_prior_state_witness :
    exPriorSession.sessionEndUnix < 118800
    ∧ updateSession 118800 true ⟨[exNewDayCandle], some exPriorSession⟩ =
        updateSession 118800 true ⟨[exNewDayCandle], some exPriorSessionZero⟩ :=
  ⟨by norm_num [exPriorSession],
    ((new_day_reset_discards_prior_state 118800 [exNewDayCandle]
      exPriorSession exPriorSessionZero (by norm_num [exPriorSession])
      (by norm_num [exPriorSessionZero])).2.1 (by decide) (by decide)).1⟩

/-! ## Session invariants -/

/-- A session's boundaries describe one whole UTC calendar day:
`sessionEndUnix` is the last second of the day starting at the
day-aligned `sessionStartUnix`. -/
def WellFormedSession (s : Session) : Prop :=
  s.sessionEndUnix = s.sessionStartUnix + 86399 ∧ s.sessionStartUnix % 86400 = 0

/-- The data-model invariant of a persisted session, amended for the
zero-volume edge case: the cumulative volume is never negative, and a
recorded last candle lies within the session boundaries. -/
def SessionInvariant (s : Session) : Prop :=
  0 ≤ s.cumulativeVolume
  ∧ ∀ t, s.lastCandleUnix = some t →
      s.sessionStartUnix ≤ t ∧ t ≤ s.sessionEndUnix

theorem dayStart_le (t : ℤ) : dayStart t ≤ t := by
  unfold dayStart
  omega

theorem le_dayEnd (t : ℤ) : t ≤ dayEnd t := by
  unfold dayEnd dayStart
  omega

theorem dayStart_mod (t : ℤ) : dayStart t % 86400 = 0 := by
  unfold dayStart
  omega

theorem dayStart_eq_of_aligned (S t : ℤ) (hS : S % 86400 = 0) (h1 : S ≤ t)
    (h2 : t ≤ S + 86399) : dayStart t = S := by
  unfold dayStart
  omega

theorem isComplete_of_mem_fetchedCandleSet (st : Store) (now : ℤ) (c : Candle)
    (hc : c ∈ fetchedCandleSet st now) : c.isComplete = true := by
  unfold fetchedCandleSet getAllComplete getCandlesAfter getCandlesInRange at hc
  split at hc
  · exact (List.mem_filter.mp hc).2
  · split at hc
    · split at hc
      · have h := (List.mem_filter.mp hc).2
        rw [Bool.and_eq_true] at h
        exact h.1
      · exact (List.mem_filter.mp hc).2
    · have h := (List.mem_filter.mp hc).2
      rw [Bool.and_eq_true, Bool.and_eq_true] at h
      exact h.1.1

theorem lastTimestamp_mem (cs : List Candle) (h : cs ≠ []) :
    ∃ c ∈ cs, lastTimestamp cs = c.unixTimestamp := by
  induction cs with
  | nil => exact absurd rfl h
  | cons c rest ih =>
    cases rest with
    | nil => exact ⟨c, List.mem_cons_self c [], rfl⟩
    | cons c' rest' =>
      obtain ⟨c₀, hc₀, he⟩ := ih (by simp)
      exact ⟨c₀, List.mem_cons_of_mem c hc₀, he⟩

theorem sumVol_pos (cs : List Candle) :
    (∀ c ∈ cs, 0 ≤ c.volume) → ∀ c ∈ cs, 0 < c.volume → 0 < sumVol cs := by
  induction cs with
  | nil =>
    intro _ c hc
    cases hc
  | cons a rest ih =>
    intro hvols c hc hpos
    have ha : 0 ≤ a.volume := hvols a (List.mem_cons_self a rest)
    have hrest : 0 ≤ sumVol rest :=
      sumVol_nonneg rest fun c' h' => hvols c' (List.mem_cons_of_mem _ h')
    simp only [sumVol, List.map_cons, List.sum_cons]
    simp only [sumVol] at hrest
    rcases List.mem_cons.mp hc with heq | hmem
    · have hpa : 0 < a.volume := heq ▸ hpos
      linarith
    · have h' := ih (fun c' h'' => hvols c' (List.mem_cons_of_mem _ h'')) c hmem hpos
      simp only [sumVol] at h'
      linarith

/-- C8 (amended): after any Session Updater run on well-formed inputs
(non-negative volumes, complete candles timestamped within the current
UTC day and not after the run time, any prior session well-formed with
its invariant holding and not started in the future), the persisted
session is well-formed and satisfies the invariant: `cumulativeVolume ≥
0` and `sessionStartUnix ≤ lastCandleUnix ≤ sessionEndUnix` whenever a
last candle is recorded; and `cumulativeVolume` is strictly positive
whenever an update actually folded a candle of positive volume — it is
zero with `lastCandleUnix` set only when every folded candle had zero
volume. -/
theorem session_invariant_preserved (now : ℤ) (ok : Bool) (st : Store) (s' : Session)
    (hvols : ∀ c ∈ st.candles, 0 ≤ c.volume)
    (hts : ∀ c ∈ st.candles, c.isComplete = true →
      dayStart now ≤ c.unixTimestamp ∧ c.unixTimestamp ≤ now)
    (hsess : ∀ s, st.session = some s →
      WellFormedSession s ∧ SessionInvariant s ∧ s.sessionStartUnix ≤ now)
    (hres : (updateSession now ok st).2.session = some s') :
    WellFormedSession s' ∧ SessionInvariant s'
    ∧ (∀ n, (updateSession now ok st).1 = .updated n →
        (∃ c ∈ fetchedCandleSet st now, 0 < c.volume) → 0 < s'.cumulativeVolume) := by
  by_cases h1 : (fetchedCandleSet st now).isEmpty = true
  · have hskip := updateSession_skipped_of_empty now ok st (list_eq_nil_of_isEmpty _ h1)
    rw [hskip] at hres
    obtain ⟨hwf, hinv, _⟩ := hsess s' hres
    refine ⟨hwf, hinv, ?_⟩
    intro n hn
    rw [hskip] at hn
    simp at hn
  · by_cases h2 : strictlyIncreasingB (fetchedCandleSet st now) = true
    · by_cases h3 : ok = true
      · subst h3
        have hne : fetchedCandleSet st now ≠ [] := by
          intro h
          rw [h] at h1
          exact h1 rfl
        obtain ⟨clast, hclast_mem, hclast_eq⟩ := lastTimestamp_mem _ hne
        have hlast_bounds := hts clast (mem_of_mem_fetchedCandleSet st now clast hclast_mem)
          (isComplete_of_mem_fetchedCandleSet st now clast hclast_mem)
        have hvol_nonneg : 0 ≤ sumVol (fetchedCandleSet st now) :=
          sumVol_nonneg _ fun c hc => hvols c (mem_of_mem_fetchedCandleSet st now c hc)
        have hvol_pos : (∃ c ∈ fetchedCandleSet st now, 0 < c.volume) →
            0 < sumVol (fetchedCandleSet st now) := by
          rintro ⟨c, hc, hp⟩
          exact sumVol_pos _ (fun c' hc' => hvols c' (mem_of_mem_fetchedCandleSet st now c' hc'))
            c hc hp
        cases hsession : st.session with
        | none =>
          have hseed : runSeed st now = (0, 0) := by simp [runSeed, hsession]
          have hbounds : runBounds st now = (dayStart now, dayEnd now) := by
            simp [runBounds, hsession]
          have htot := accumulate_totals (fetchedCandleSet st now) 0 0
          simp only [updateSession, h1, Bool.false_eq_true, if_false, h2, if_true,
            hseed, hbounds, htot, Option.some.injEq] at hres
          rw [← hres]
          refine ⟨⟨rfl, dayStart_mod now⟩, ⟨by simpa using hvol_nonneg, ?_⟩, ?_⟩
          · intro t ht
            simp only [sessionAfterAccum, Option.some.injEq] at ht
            simp only [sessionAfterAccum]
            rw [← ht, hclast_eq]
            exact ⟨hlast_bounds.1, le_trans hlast_bounds.2 (le_dayEnd now)⟩
          · intro n _ hex
            simpa using hvol_pos hex
        | some s =>
          obtain ⟨hwf, hinv, hle⟩ := hsess s hsession
          by_cases hday : now ≤ s.sessionEndUnix
          · have hseed : runSeed st now = (s.cumulativePV, s.cumulativeVolume) := by
              simp [runSeed, hsession, hday]
            have hbounds : runBounds st now = (s.sessionStartUnix, s.sessionEndUnix) := by
              simp [runBounds, hsession, hday]
            have halign : dayStart now = s.sessionStartUnix :=
              dayStart_eq_of_aligned s.sessionStartUnix now hwf.2 hle
                (by rw [← hwf.1]; exact hday)
            have htot := accumulate_totals (fetchedCandleSet st now)
              s.cumulativePV s.cumulativeVolume
            simp only [updateSession, h1, Bool.false_eq_true, if_false, h2, if_true,
              hseed, hbounds, htot, Option.some.injEq] at hres
            rw [← hres]
            refine ⟨⟨hwf.1, hwf.2⟩, ⟨?_, ?_⟩, ?_⟩
            · simp only [sessionAfterAccum]
              have := hinv.1
              linarith
            · intro t ht
              simp only [sessionAfterAccum, Option.some.injEq] at ht
              simp only [sessionAfterAccum]
              rw [← ht, hclast_eq]
              constructor
              · rw [← halign]
                exact hlast_bounds.1
              · exact le_trans hlast_bounds.2 hday
            · intro n _ hex
              have := hvol_pos hex
              have := hinv.1
              simp only [sessionAfterAccum]
              linarith
          · have hseed : runSeed st now = (0, 0) := by simp [runSeed, hsession, hday]
            have hbounds : runBounds st now = (dayStart now, dayEnd now) := by
              simp [runBounds, hsession, hday]
            have htot := accumulate_totals (fetchedCandleSet st now) 0 0
            simp only [updateSession, h1, Bool.false_eq_true, if_false, h2, if_true,
              hseed, hbounds, htot, Option.some.injEq] at hres
            rw [← hres]
            refine ⟨⟨rfl, dayStart_mod now⟩, ⟨by simpa using hvol_nonneg, ?_⟩, ?_⟩
            · intro t ht
              simp only [sessionAfterAccum, Option.some.injEq] at ht
              simp only [sessionAfterAccum]
              rw [← ht, hclast_eq]
              exact ⟨hlast_bounds.1, le_trans hlast_bounds.2 (le_dayEnd now)⟩
            · intro n _ hex
              simpa using hvol_pos hex
      · simp only [Bool.not_eq_true] at h3
        have hfail : (updateSession now ok st).2 = st := by
          subst h3
          simp [updateSession, h1, h2]
        rw [hfail] at hres
        obtain ⟨hwf, hinv, _⟩ := hsess s' hres
        refine ⟨hwf, hinv, ?_⟩
        intro n hn
        subst h3
        simp [updateSession, h1, h2] at hn
    · simp only [Bool.not_eq_true] at h2
      have hfail : (updateSession now ok st).2 = st := by
        simp [updateSession, h1, h2]
      rw [hfail] at hres
      obtain ⟨hwf, hinv, _⟩ := hsess s' hres
      refine ⟨hwf, hinv, ?_⟩
      intro n hn
      simp [updateSession, h1, h2] at hn

/-- C8 counterexample: a run over a single complete zero-volume candle
(the spec's ZeroVolumeCandleSet policy: do not fail, still advance
`lastCandleUnix`) persists a session whose `lastCandleUnix` is set
while `cumulativeVolume = 0`, refuting the claim that a set
`lastCandleUnix` implies `cumulativeVolume > 0`. -/
theorem session_invariant_counterexample :
    (updateSession 40000 true ⟨[exCandleZeroVol], none⟩).2.session.map
        (fun s => (s.lastCandleUnix, s.cumulativeVolume)) =
      some (some 32400, 0) := by
  norm_num [updateSession, fetchedCandleSet, getAllComplete, runSeed, runBounds,
    accumulate, typicalPrice, emitVWAP, strictlyIncreasingB, sessionAfterAccum,
    lastTimestamp, exCandleZeroVol, List.filter]

theorem session_invariant_preserved_witness :
    (updateSession 36000 true ⟨[exCandle1], none⟩).2.session =
      some (sessionAfterAccum 0 86399 9500 1000 32400)
    ∧ WellFormedSession (sessionAfterAccum 0 86399 9500 1000 32400)
    ∧ SessionInvariant (sessionAfterAccum 0 86399 9500 1000 32400) := by
  have hres : (updateSession 36000 true ⟨[exCandle1], none⟩).2.session =
      some (sessionAfterAccum 0 86399 9500 1000 32400) := by
    norm_num [updateSession, fetchedCandleSet, getAllComplete, runSeed, runBounds,
      accumulate, typicalPrice, emitVWAP, strictlyIncreasingB, sessionAfterAccum,
      lastTimestamp, exCandle1, List.filter, dayStart, dayEnd]
  have h := session_invariant_preserved 36000 true ⟨[exCandle1], none⟩
    (sessionAfterAccum 0 86399 9500 1000 32400)
    (by
      intro c hc
      simp only [List.mem_cons, List.not_mem_nil, or_false] at hc
      rw [hc]
      norm_num [exCandle1])
    (by
      intro c hc _
      simp only [List.mem_cons, List.not_mem_nil, or_false] at hc
      rw [hc]
      refine ⟨?_, ?_⟩ <;> norm_num [exCandle1, dayStart])
    (by
      intro s hs
      cases hs)
    hres
  exact ⟨hres, h.1, h.2.1⟩

/-! ## VWAP stays between the typical prices seen so far -/

theorem sumPV_bounds (cs : List Candle) (m M : ℚ) :
    (∀ c ∈ cs, 0 ≤ c.volume) → (∀ c ∈ cs, m ≤ typicalPrice c) →
    (∀ c ∈ cs, typicalPrice c ≤ M) →
    m * sumVol cs ≤ sumPV cs ∧ sumPV cs ≤ M * sumVol cs := by
  induction cs with
  | nil =>
    intro _ _ _
    simp [sumVol, sumPV]
  | cons a rest ih =>
    intro hv hm hM
    have h1 : 0 ≤ a.volume := hv a (List.mem_cons_self a rest)
    have h2 : m ≤ typicalPrice a := hm a (List.mem_cons_self a rest)
    have h3 : typicalPrice a ≤ M := hM a (List.mem_cons_self a rest)
    obtain ⟨ih1, ih2⟩ := ih (fun c hc => hv c (List.mem_cons_of_mem _ hc))
      (fun c hc => hm c (List.mem_cons_of_mem _ hc))
      (fun c hc => hM c (List.mem_cons_of_mem _ hc))
    simp only [sumPV, sumVol, List.map_cons, List.sum_cons] at *
    constructor
    · rw [mul_add]
      exact add_le_add (mul_le_mul_of_nonneg_right h2 h1) ih1
    · rw [mul_add]
      exact add_le_add (mul_le_mul_of_nonneg_right h3 h1) ih2

/-- C10: over a run of the accumulator seeded from `(0, 0)` with
non-negative volumes, every emitted per-candle VWAP value — the final
`currentVWAP` included — lies between any lower bound and any upper
bound of the typical prices of the candles folded so far (hence between
their minimum and maximum): the VWAP is a volume-weighted mean of
typical prices. An emitted `some` value itself witnesses that the
cumulative volume is positive at that emission point. -/
theorem vwap_bounded_by_typical_prices (cs : List Candle)
    (hvols : ∀ c ∈ cs, 0 ≤ c.volume) (k : ℕ) (c : Candle) (v : ℚ)
    (hv : (accumulate cs 0 0).1[k]? = some (c, some v)) (m M : ℚ)
    (hm : ∀ c' ∈ cs.take (k + 1), m ≤ typicalPrice c')
    (hM : ∀ c' ∈ cs.take (k + 1), typicalPrice c' ≤ M) :
    m ≤ v ∧ v ≤ M := by
  rw [accumulate_emission] at hv
  cases hck : cs[k]? with
  | none =>
    rw [hck] at hv
    simp at hv
  | some c₀ =>
    rw [hck] at hv
    simp only [Option.map_some', Option.some.injEq, Prod.mk.injEq] at hv
    obtain ⟨hc₀, hemit⟩ := hv
    unfold emitVWAP at hemit
    by_cases hpos : 0 < 0 + sumVol (cs.take (k + 1))
    · rw [if_pos hpos, Option.some.injEq] at hemit
      rw [zero_add] at hpos
      rw [zero_add, zero_add] at hemit
      have hsub : ∀ c' ∈ cs.take (k + 1), 0 ≤ c'.volume := fun c' hc' =>
        hvols c' (List.take_subset _ _ hc')
      obtain ⟨hlo, hhi⟩ := sumPV_bounds (cs.take (k + 1)) m M hsub hm hM
      rw [← hemit]
      constructor
      · rw [le_div_iff₀ hpos]
        exact hlo
      · rw [div_le_iff₀ hpos]
        exact hhi
    · rw [if_neg hpos] at hemit
      cases hemit

theorem vwap_bounded_by_typical_prices_witness :
    (accumulate [exCandle1, exCandle2] 0 0).1[1]? = some (exCandle2, some (10.1 : ℚ))
    ∧ ((9.5 : ℚ) ≤ 10.1 ∧ (10.1 : ℚ) ≤ 10.5) := by
  have hv : (accumulate [exCandle1, exCandle2] 0 0).1[1]? =
      some (exCandle2, some (10.1 : ℚ)) := by
    norm_num [accumulate, exCandle1, exCandle2, typicalPrice, emitVWAP]
  refine ⟨hv, vwap_bounded_by_typical_prices [exCandle1, exCandle2] ?_ 1 exCandle2
    (10.1 : ℚ) hv 9.5 10.5 ?_ ?_⟩
  · intro c hc
    simp only [List.mem_cons, List.not_mem_nil, or_false] at hc
    rcases hc with rfl | rfl
    · norm_num [exCandle1]
    · norm_num [exCandle2]
  · intro c' hc'
    simp only [List.take, List.mem_cons, List.not_mem_nil, or_false] at hc'
    rcases hc' with rfl | rfl
    · norm_num [typicalPrice, exCandle1]
    · norm_num [typicalPrice, exCandle2]
  · intro c' hc'
    simp only [List.take, List.mem_cons, List.not_mem_nil, or_false] at hc'
    rcases hc' with rfl | rfl
    · norm_num [typicalPrice, exCandle1]
    · norm_num [typicalPrice, exCandle2]

end Onchain
